import Mathlib

/-!
Shallow embedding of the kova-core validation engine
(`src/core/validation.rs`) and storage failover manager
(`src/blockchain/manager.rs`, `src/blockchain/mod.rs`).

Modelling conventions:
* Rust `u8` payload bytes are modelled as `Nat` (the theorems hold for all
  naturals, a superset of the byte range `0..=255`).
* Rust `f64` arithmetic is modelled as exact rational arithmetic (`ℚ`).
  Every numeric claim checked here concerns exact branch constants and
  comparisons between them, which the rational model renders faithfully.
* `chrono::DateTime<Utc>` is modelled by the bytes of its RFC3339 rendering,
  which is the only way the validation code consumes a timestamp.
* Asynchronous effects are modelled by the outcome each call produces during
  one invocation: a backend's availability probe becomes a `Bool`, its
  store/retrieve calls become functions from the argument to the `Result`.
-/

namespace Kova

/-- Rust `u8` values, modelled as naturals. -/
abbrev Byte := Nat

/-- Rust `f64`, modelled as exact rationals. -/
abbrev F := ℚ

/-- `crate::core::Error` (`src/core/error.rs`), one constructor per variant;
payload is the formatted message. -/
inductive Error where
  | Sensor (msg : String)
  | Blockchain (msg : String)
  | Validation (msg : String)
  | Network (msg : String)
  | Config (msg : String)
  | Storage (msg : String)
  | Io (msg : String)
  | Serialization (msg : String)
  | Other (msg : String)
deriving DecidableEq, Repr

/-- `Error::blockchain` constructor helper. -/
def Error.blockchain (msg : String) : Error := Error.Blockchain msg

/-- `chrono::DateTime<chrono::Utc>`, reduced to the bytes of its
`to_rfc3339()` rendering (the only observation the validator makes of it). -/
structure DateTimeUtc where
  rfc3339Bytes : List Byte
deriving DecidableEq, Repr

/-- `ValidationConfig` (`validation.rs` lines 14-23). -/
structure ValidationConfig where
  min_quality_score : F
  enable_anomaly_detection : Bool
  enable_temporal_consistency : Bool
  max_noise_threshold : F
deriving DecidableEq, Repr

/-- `ValidationConfig::default` (`validation.rs` lines 55-64). -/
def ValidationConfig.default : ValidationConfig :=
  { min_quality_score := 0.7
    enable_anomaly_detection := true
    enable_temporal_consistency := true
    max_noise_threshold := 0.1 }

/-- `QualityMetrics` (`validation.rs` lines 42-53). -/
structure QualityMetrics where
  noise_level : F
  completeness : F
  consistency : F
  accuracy : F
  anomaly_score : F
deriving DecidableEq, Repr

/-- `ValidationResult` (`validation.rs` lines 27-38). -/
structure ValidationResult where
  quality_score : F
  timestamp : DateTimeUtc
  metrics : QualityMetrics
  signature : String
  is_valid : Bool
deriving DecidableEq, Repr

/-- `DataValidator` (`validation.rs` lines 8-10). -/
structure DataValidator where
  config : ValidationConfig
deriving DecidableEq, Repr

/-- `DataValidator::new` (`validation.rs` lines 68-72). -/
def DataValidator.new : DataValidator := ⟨ValidationConfig.default⟩

/-- `DataValidator::with_config` (`validation.rs` lines 75-77). -/
def DataValidator.with_config (config : ValidationConfig) : DataValidator := ⟨config⟩

/-- Metadata map; the validator never reads it, so the entry list is enough. -/
abbrev Metadata := List (String × String)

/-- `calculate_noise_level` (`validation.rs` lines 160-171): mean squared
deviation from 127.5, normalized by 127.5², clamped to at most 1;
empty input gives 1. -/
def calculate_noise_level (data : List Byte) : F :=
  if data = [] then 1.0
  else
    let variance := (data.map (fun (x : Byte) => ((x : F) - 127.5) ^ 2)).sum / (data.length : F)
    min (variance / (127.5 : F) ^ 2) 1.0

/-- `calculate_completeness` (`validation.rs` lines 174-183): one minus the
fraction of zero bytes, floored at 0; empty input gives 0. -/
def calculate_completeness (data : List Byte) : F :=
  if data = [] then 0.0
  else
    let null_count := (data.filter (fun x => decide (x = 0))).length
    max (1.0 - (null_count : F) / (data.length : F)) 0.0

/-- `calculate_consistency` (`validation.rs` lines 186-199): one minus the
variance around the mean normalized by 127.5², floored at 0; fewer than two
bytes gives 1. -/
def calculate_consistency (data : List Byte) : F :=
  if data.length < 2 then 1.0
  else
    let mean := (data.map (fun (x : Byte) => (x : F))).sum / (data.length : F)
    let variance := (data.map (fun (x : Byte) => ((x : F) - mean) ^ 2)).sum / (data.length : F)
    max (1.0 - variance / (127.5 : F) ^ 2) 0.0

/-- `calculate_accuracy` (`validation.rs` lines 202-214): fraction of bytes in
the printable-ASCII range `[32,126]`; empty input gives 0. -/
def calculate_accuracy (data : List Byte) : F :=
  if data = [] then 0.0
  else
    let valid_count := (data.filter (fun x => decide (32 ≤ x ∧ x ≤ 126))).length
    (valid_count : F) / (data.length : F)

/-- `calculate_anomaly_score` (`validation.rs` lines 217-235). The source
counts bytes with `|x - mean| > 2 * std_dev` where `std_dev = sqrt variance`;
since both sides are nonnegative this is equivalent to the square comparison
`(x - mean)^2 > 4 * variance` used here, which keeps the definition inside
exact rational arithmetic. Fewer than ten bytes gives `Ok 0`. -/
def calculate_anomaly_score (data : List Byte) : Except Error F :=
  if data.length < 10 then Except.ok 0.0
  else
    let mean := (data.map (fun (x : Byte) => (x : F))).sum / (data.length : F)
    let variance := (data.map (fun (x : Byte) => ((x : F) - mean) ^ 2)).sum / (data.length : F)
    let outliers := (data.filter (fun (x : Byte) => decide (((x : F) - mean) ^ 2 > 4 * variance))).length
    Except.ok ((outliers : F) / (data.length : F))

/-- `calculate_quality_metrics` (`validation.rs` lines 134-157): the metadata
argument is ignored by the source (bound as `_metadata`); the anomaly score is
computed only when the validator's own config enables anomaly detection. -/
def calculate_quality_metrics (v : DataValidator) (data : List Byte)
    (_metadata : Metadata) : Except Error QualityMetrics :=
  let anomaly := if v.config.enable_anomaly_detection
    then calculate_anomaly_score data
    else Except.ok 0.0
  match anomaly with
  | Except.error e => Except.error e
  | Except.ok anomaly_score =>
      Except.ok
        { noise_level := calculate_noise_level data
          completeness := calculate_completeness data
          consistency := calculate_consistency data
          accuracy := calculate_accuracy data
          anomaly_score := anomaly_score }

/-- `calculate_quality_score` (`validation.rs` lines 238-251): equal-weight
(0.2 each) combination of the five sub-scores, in the source's order. -/
def calculate_quality_score (metrics : QualityMetrics) : F :=
  (1.0 - metrics.noise_level) * 0.2 + metrics.completeness * 0.2 +
    metrics.consistency * 0.2 + metrics.accuracy * 0.2 +
    (1.0 - metrics.anomaly_score) * 0.2

/-- Right rotation of a 32-bit word held in a `Nat` below `2^32`. -/
def rotr32 (x n : Nat) : Nat :=
  (x >>> n) ||| ((x <<< (32 - n)) % 4294967296)

/-- Big-endian byte rendering of `n` on `len` bytes. -/
def toBytesBE (n len : Nat) : List Byte :=
  (List.range len).map (fun i => (n >>> (8 * (len - 1 - i))) % 256)

/-- SHA-256 round constants (FIPS 180-4), as computed by the `sha2` crate. -/
def sha256K : List Nat :=
  [1116352408, 1899447441, 3049323471, 3921009573, 961987163,
   1508970993, 2453635748, 2870763221, 3624381080, 310598401,
   607225278, 1426881987, 1925078388, 2162078206, 2614888103,
   3248222580, 3835390401, 4022224774, 264347078, 604807628,
   770255983, 1249150122, 1555081692, 1996064986, 2554220882,
   2821834349, 2952996808, 3210313671, 3336571891, 3584528711,
   113926993, 338241895, 666307205, 773529912, 1294757372,
   1396182291, 1695183700, 1986661051, 2177026350, 2456956037,
   2730485921, 2820302411, 3259730800, 3345764771, 3516065817,
   3600352804, 4094571909, 275423344, 430227734, 506948616,
   659060556, 883997877, 958139571, 1322822218, 1537002063,
   1747873779, 1955562222, 2024104815, 2227730452, 2361852424,
   2428436474, 2756734187, 3204031479, 3329325298]

/-- SHA-256 initial hash state (FIPS 180-4). -/
def sha256H0 : List Nat :=
  [1779033703, 3144134277, 1013904242, 2773480762,
   1359893119, 2600822924, 528734635, 1541459225]

/-- SHA-256 message padding: `0x80`, zeros to 56 mod 64, then the bit length
on eight big-endian bytes. -/
def sha256pad (msg : List Byte) : List Byte :=
  msg ++ [0x80] ++ List.replicate ((120 - ((msg.length + 1) % 64)) % 64) 0 ++
    toBytesBE (8 * msg.length) 8

/-- Group bytes four at a time into big-endian 32-bit words. -/
def bytesToWords : List Byte → List Nat
  | a :: b :: c :: d :: rest =>
      (((a * 256 + b) * 256 + c) * 256 + d) :: bytesToWords rest
  | _ => []

/-- SHA-256 message-schedule extension of a 16-word block to 64 words. -/
def sha256extend (w0 : List Nat) : List Nat :=
  (List.range 48).foldl
    (fun w _ =>
      let i := w.length
      let x15 := w.getD (i - 15) 0
      let x2 := w.getD (i - 2) 0
      let s0 := (rotr32 x15 7) ^^^ (rotr32 x15 18) ^^^ (x15 >>> 3)
      let s1 := (rotr32 x2 17) ^^^ (rotr32 x2 19) ^^^ (x2 >>> 10)
      w ++ [(w.getD (i - 16) 0 + s0 + w.getD (i - 7) 0 + s1) % 4294967296])
    w0

/-- SHA-256 compression of one 64-byte block into the running state. -/
def sha256compress (H : List Nat) (block : List Byte) : List Nat :=
  let w := sha256extend (bytesToWords block)
  let step := fun (st : Nat × Nat × Nat × Nat × Nat × Nat × Nat × Nat) (i : Nat) =>
    let (a, b, c, d, e, f, g, hh) := st
    let s1 := (rotr32 e 6) ^^^ (rotr32 e 11) ^^^ (rotr32 e 25)
    let ch := (e &&& f) ^^^ ((e ^^^ 0xffffffff) &&& g)
    let temp1 := (hh + s1 + ch + sha256K.getD i 0 + w.getD i 0) % 4294967296
    let s0 := (rotr32 a 2) ^^^ (rotr32 a 13) ^^^ (rotr32 a 22)
    let maj := (a &&& b) ^^^ (a &&& c) ^^^ (b &&& c)
    let temp2 := (s0 + maj) % 4294967296
    ((temp1 + temp2) % 4294967296, a, b, c, (d + temp1) % 4294967296, e, f, g)
  match (List.range 64).foldl step
      (H.getD 0 0, H.getD 1 0, H.getD 2 0, H.getD 3 0,
       H.getD 4 0, H.getD 5 0, H.getD 6 0, H.getD 7 0) with
  | (a, b, c, d, e, f, g, hh) =>
      [(H.getD 0 0 + a) % 4294967296, (H.getD 1 0 + b) % 4294967296,
       (H.getD 2 0 + c) % 4294967296, (H.getD 3 0 + d) % 4294967296,
       (H.getD 4 0 + e) % 4294967296, (H.getD 5 0 + f) % 4294967296,
       (H.getD 6 0 + g) % 4294967296, (H.getD 7 0 + hh) % 4294967296]

/-- SHA-256 digest of a byte sequence, as computed by the `sha2` crate
(`Sha256::new` / `update` / `finalize`). -/
def sha256 (msg : List Byte) : List Byte :=
  let padded := sha256pad msg
  let final := (List.range (padded.length / 64)).foldl
    (fun H i => sha256compress H ((padded.drop (64 * i)).take 64)) sha256H0
  (final.map (fun x => toBytesBE x 4)).flatten

/-- Lowercase hexadecimal digit for a value below 16. -/
def hexChar (n : Nat) : Char :=
  if n < 10 then Char.ofNat (48 + n) else Char.ofNat (87 + n)

/-- `hex::encode`: lowercase hexadecimal rendering of a byte sequence. -/
def hexEncode (bs : List Byte) : String :=
  String.mk (bs.foldr (fun b acc => hexChar (b / 16) :: hexChar (b % 16) :: acc) [])

/-- `generate_signature` (`validation.rs` lines 254-263): hex encoding of the
SHA-256 digest of the payload followed by the RFC3339 bytes of the timestamp
(the two `hasher.update` calls hash the concatenation). -/
def generate_signature (data : List Byte) (timestamp : DateTimeUtc) : String :=
  hexEncode (sha256 (data ++ timestamp.rfc3339Bytes))

/-- `DataValidator::validate` (`validation.rs` lines 80-102). The clock read
`chrono::Utc::now()` is passed in as the `now` argument; everything after that
read is modelled exactly. -/
def validate (v : DataValidator) (data : List Byte) (metadata : Metadata)
    (now : DateTimeUtc) : Except Error ValidationResult :=
  match calculate_quality_metrics v data metadata with
  | Except.error e => Except.error e
  | Except.ok metrics =>
      let quality_score := calculate_quality_score metrics
      let is_valid := decide (v.config.min_quality_score ≤ quality_score)
      let signature := generate_signature data now
      Except.ok
        { quality_score := quality_score
          timestamp := now
          metrics := metrics
          signature := signature
          is_valid := is_valid }

/-- `DataValidator::validate_with_config` (`validation.rs` lines 105-131):
metrics are computed with the validator's own config and an empty metadata
map; only `min_quality_score` is read from the config argument. -/
def validate_with_config (v : DataValidator) (data : List Byte)
    (config : ValidationConfig) (now : DateTimeUtc) : Except Error ValidationResult :=
  match calculate_quality_metrics v data [] with
  | Except.error e => Except.error e
  | Except.ok metrics =>
      let quality_score := calculate_quality_score metrics
      let is_valid := decide (config.min_quality_score ≤ quality_score)
      let signature := generate_signature data now
      Except.ok
        { quality_score := quality_score
          timestamp := now
          metrics := metrics
          signature := signature
          is_valid := is_valid }

/-- `BlockchainClient` trait (`src/blockchain/mod.rs` lines 11-23), modelled
by the behaviour it exhibits during one manager invocation: the availability
probe's outcome and the outcome of a store/retrieve call per argument. -/
structure BlockchainClient where
  name : String
  is_available : Bool
  store_data : List Byte → Except Error String
  retrieve_data : String → Except Error (List Byte)

/-- `BlockchainManager` (`src/blockchain/manager.rs` lines 9-11): a
`RwLock<HashMap<String, Box<dyn BlockchainClient>>>`. The map's contents are
recorded as a duplicate-free association list in insertion order; its
iteration order is a separate, unspecified permutation of these entries
(see `IsIterationOrder`). -/
structure BlockchainManager where
  clients : List (String × BlockchainClient)

/-- `BlockchainManager::new` (`manager.rs` lines 15-19). -/
def BlockchainManager.new : BlockchainManager := ⟨[]⟩

/-- `HashMap::insert`: replace the value stored under an existing key, else
append a fresh entry. -/
def insertClient : List (String × BlockchainClient) → String → BlockchainClient →
    List (String × BlockchainClient)
  | [], name, c => [(name, c)]
  | (k, v) :: rest, name, c =>
      if k = name then (k, c) :: rest else (k, v) :: insertClient rest name c

/-- `BlockchainManager::add_client` (`manager.rs` lines 22-25). -/
def BlockchainManager.add_client (m : BlockchainManager) (name : String)
    (client : BlockchainClient) : BlockchainManager :=
  ⟨insertClient m.clients name client⟩

/-- A manager that performed the given `add_client` calls, in order, starting
from `BlockchainManager::new`. -/
def mkManager (adds : List (String × BlockchainClient)) : BlockchainManager :=
  adds.foldl (fun m p => m.add_client p.1 p.2) BlockchainManager.new

/-- `clients.iter()` on the `HashMap` yields every entry exactly once in an
order the `HashMap` leaves unspecified: a sequence is a possible iteration
order of the manager exactly when it is a permutation of the map entries. -/
def IsIterationOrder (m : BlockchainManager) (iter : List (String × BlockchainClient)) : Prop :=
  iter.Perm m.clients

/-- `BlockchainManager::store_data` (`manager.rs` lines 28-46): walk the
`HashMap` iteration sequence `iter`; skip unavailable clients; return the
first successful store; on per-client store failure log and continue; when
the loop exhausts, fail with the aggregate error. -/
def BlockchainManager.store_data (iter : List (String × BlockchainClient))
    (data : List Byte) : Except Error String :=
  match iter with
  | [] => Except.error (Error.blockchain "No available blockchain clients")
  | (_, client) :: rest =>
      if client.is_available then
        match client.store_data data with
        | Except.ok hash => Except.ok hash
        | Except.error _ => BlockchainManager.store_data rest data
      else BlockchainManager.store_data rest data

/-- `BlockchainManager::retrieve_data` (`manager.rs` lines 49-67): identical
sequential policy over the iteration sequence, with per-client retrieve. -/
def BlockchainManager.retrieve_data (iter : List (String × BlockchainClient))
    (hash : String) : Except Error (List Byte) :=
  match iter with
  | [] => Except.error (Error.blockchain "No available blockchain clients")
  | (_, client) :: rest =>
      if client.is_available then
        match client.retrieve_data hash with
        | Except.ok data => Except.ok data
        | Except.error _ => BlockchainManager.retrieve_data rest hash
      else BlockchainManager.retrieve_data rest hash

/-- Names of the clients contacted (availability probe issued) during one
`store_data` invocation over the iteration sequence `iter`, in order: every
entry up to and including the one whose store succeeds. -/
def store_contacts (iter : List (String × BlockchainClient)) (data : List Byte) :
    List String :=
  match iter with
  | [] => []
  | (name, client) :: rest =>
      if client.is_available then
        match client.store_data data with
        | Except.ok _ => [name]
        | Except.error _ => name :: store_contacts rest data
      else name :: store_contacts rest data

/-- Value most recently added under `name` by the call sequence `adds`;
this is the claim's reading of "lookups resolve to the most recently added
backend". -/
def mostRecent : List (String × BlockchainClient) → String → Option BlockchainClient
  | [], _ => none
  | (k, v) :: rest, name =>
      match mostRecent rest name with
      | some c => some c
      | none => if k = name then some v else none

/-- Association-list lookup on the modelled `HashMap` contents. -/
def lookupClient : List (String × BlockchainClient) → String → Option BlockchainClient
  | [], _ => none
  | (k, v) :: rest, name => if k = name then some v else lookupClient rest name

/-- Always-unavailable client; its probe answers `false`. -/
def wUnavail : BlockchainClient :=
  { name := "u", is_available := false
    store_data := fun _ => Except.ok "hu"
    retrieve_data := fun _ => Except.ok [] }

/-- Available client whose store and retrieve calls always fail. -/
def wFail : BlockchainClient :=
  { name := "f", is_available := true
    store_data := fun _ => Except.error (Error.Storage "boom")
    retrieve_data := fun _ => Except.error (Error.Storage "boom") }

/-- Available client whose store and retrieve calls always succeed. -/
def wOk : BlockchainClient :=
  { name := "o", is_available := true
    store_data := fun _ => Except.ok "ho"
    retrieve_data := fun _ => Except.ok [9] }

/-- Spy client used to observe that it is never contacted. -/
def wSpy : BlockchainClient :=
  { name := "s", is_available := true
    store_data := fun _ => Except.ok "hs"
    retrieve_data := fun _ => Except.ok [8] }

/-- Metrics the validator computes for the payload `[0]` (and also `[]`). -/
def wMetrics : QualityMetrics :=
  { noise_level := 1, completeness := 0, consistency := 1
    accuracy := 0, anomaly_score := 0 }

/-- Result of the default validator on the empty payload. -/
def wRes : ValidationResult :=
  { quality_score := 0.4, timestamp := ⟨[]⟩, metrics := wMetrics
    signature := generate_signature [] ⟨[]⟩, is_valid := false }

/-- Default configuration with anomaly detection turned off. -/
def wCfgNoAnomaly : ValidationConfig :=
  { ValidationConfig.default with enable_anomaly_detection := false }

/-- Result of `validate_with_config` on the payload `[0]`. -/
def wRes0 : ValidationResult :=
  { quality_score := 0.4, timestamp := ⟨[]⟩, metrics := wMetrics
    signature := generate_signature [0] ⟨[]⟩, is_valid := false }

/-- Backend registered first in the C1 counterexample; its store succeeds. -/
def cexA : BlockchainClient :=
  { name := "a", is_available := true
    store_data := fun _ => Except.ok "ha"
    retrieve_data := fun _ => Except.ok [] }

/-- Backend registered second in the C1 counterexample; its store succeeds. -/
def cexB : BlockchainClient :=
  { name := "b", is_available := true
    store_data := fun _ => Except.ok "hb"
    retrieve_data := fun _ => Except.ok [] }

/-- Manager that registered `"a"` and then `"b"`. -/
def cexMgr : BlockchainManager := mkManager [("a", cexA), ("b", cexB)]

/-- An iteration order of that manager's `HashMap` putting `"b"` first. -/
def cexIter : List (String × BlockchainClient) := [("b", cexB), ("a", cexA)]

/-- Helper: filtering a constant list keeps all or none of it. -/
theorem filter_replicate {α : Type} (n : Nat) (a : α) (p : α → Bool) :
    (List.replicate n a).filter p = if p a then List.replicate n a else [] := by
  induction n with
  | zero => simp
  | succ n ih => by_cases h : p a <;> simp [List.replicate_succ, List.filter_cons, h, ih]

/-- Helper: `calculate_anomaly_score` can only produce `Ok`. -/
theorem calculate_anomaly_score_ok (data : List Byte) :
    ∃ a, calculate_anomaly_score data = Except.ok a := by
  unfold calculate_anomaly_score
  split
  · exact ⟨_, rfl⟩
  · exact ⟨_, rfl⟩

/-- Helper: `calculate_quality_metrics` can only produce `Ok`. -/
theorem calculate_quality_metrics_ok (v : DataValidator) (data : List Byte)
    (md : Metadata) : ∃ m, calculate_quality_metrics v data md = Except.ok m := by
  obtain ⟨a, ha⟩ := calculate_anomaly_score_ok data
  unfold calculate_quality_metrics
  by_cases hb : v.config.enable_anomaly_detection
  · simp only [hb, if_true, ha]
    exact ⟨_, rfl⟩
  · simp only [hb, if_false, Bool.false_eq_true]
    exact ⟨_, rfl⟩

/-- C7: `validate` never returns an error: for every validator configuration,
byte payload (including the empty one), metadata map and timestamp it returns
`Ok` with a `ValidationResult`; low quality is reported through the
`is_valid` field, not the error channel. -/
theorem validate_never_errors (v : DataValidator) (data : List Byte)
    (metadata : Metadata) (now : DateTimeUtc) :
    ∃ r, validate v data metadata now = Except.ok r := by
  obtain ⟨m, hm⟩ := calculate_quality_metrics_ok v data metadata
  unfold validate
  rw [hm]
  exact ⟨_, rfl⟩

/-- C2: on the empty payload the metrics are `noise_level = 1`,
`completeness = 0`, `consistency = 1`, `accuracy = 0`, `anomaly_score = 0`,
the quality score is `0.4`, and under the default configuration
(`min_quality_score = 0.7`) the result is not valid. -/
theorem validate_empty_payload (metadata : Metadata) (now : DateTimeUtc) :
    validate DataValidator.new [] metadata now =
      Except.ok
        { quality_score := 0.4
          timestamp := now
          metrics :=
            { noise_level := 1, completeness := 0, consistency := 1
              accuracy := 0, anomaly_score := 0 }
          signature := generate_signature [] now
          is_valid := false } := by
  simp only [validate, calculate_quality_metrics, calculate_noise_level,
    calculate_completeness, calculate_consistency, calculate_accuracy,
    calculate_anomaly_score, calculate_quality_score, DataValidator.new,
    ValidationConfig.default]
  norm_num

/-- C3 counterexample: on the payload of 32 identical bytes `0x41` the noise
level is `625/2601 ≈ 0.24` (the code measures deviation from `127.5`, not
variance around the mean), not `0`, and the quality score is `2476/2601`,
not `1`. -/
theorem noise_level_not_zero_on_constant_payload :
    calculate_noise_level (List.replicate 32 65) = 625 / 2601 ∧
    calculate_noise_level (List.replicate 32 65) ≠ 0 ∧
    calculate_quality_score
        { noise_level := calculate_noise_level (List.replicate 32 65)
          completeness := 1, consistency := 1, accuracy := 1
          anomaly_score := 0 } ≠ 1 := by
  have h1 : calculate_noise_level (List.replicate 32 65) = 625 / 2601 := by
    rw [calculate_noise_level, if_neg (by simp)]
    simp only [List.map_replicate, List.sum_replicate, List.length_replicate,
      nsmul_eq_mul]
    rw [min_def]
    norm_num
  refine ⟨h1, by rw [h1]; norm_num, by rw [h1]; norm_num [calculate_quality_score]⟩

/-- C3 (amended): on the payload of 32 identical bytes `0x41` the metrics are
`noise_level = 625/2601`, `completeness = 1`, `consistency = 1`,
`accuracy = 1`, `anomaly_score = 0`, the quality score is `2476/2601 ≈ 0.95`,
and under the default threshold `0.7` the result is valid. -/
theorem validate_constant_payload (metadata : Metadata) (now : DateTimeUtc) :
    validate DataValidator.new (List.replicate 32 65) metadata now =
      Except.ok
        { quality_score := 2476 / 2601
          timestamp := now
          metrics :=
            { noise_level := 625 / 2601, completeness := 1, consistency := 1
              accuracy := 1, anomaly_score := 0 }
          signature := generate_signature (List.replicate 32 65) now
          is_valid := true } := by
  have h1 : calculate_noise_level (List.replicate 32 65) = 625 / 2601 := by
    rw [calculate_noise_level, if_neg (by simp)]
    simp only [List.map_replicate, List.sum_replicate, List.length_replicate,
      nsmul_eq_mul]
    rw [min_def]
    norm_num
  have h2 : calculate_completeness (List.replicate 32 65) = 1 := by
    rw [calculate_completeness, if_neg (by simp)]
    rw [filter_replicate, max_def]
    norm_num
  have h3 : calculate_consistency (List.replicate 32 65) = 1 := by
    rw [calculate_consistency, if_neg (by norm_num)]
    simp only [List.map_replicate, List.sum_replicate, List.length_replicate,
      nsmul_eq_mul]
    rw [max_def]
    norm_num
  have h4 : calculate_accuracy (List.replicate 32 65) = 1 := by
    rw [calculate_accuracy, if_neg (by simp)]
    rw [filter_replicate]
    norm_num
  have h5 : calculate_anomaly_score (List.replicate 32 65) = Except.ok 0 := by
    rw [calculate_anomaly_score, if_neg (by norm_num)]
    simp only [List.map_replicate, List.sum_replicate, List.length_replicate,
      nsmul_eq_mul]
    rw [filter_replicate]
    norm_num
  simp only [validate, calculate_quality_metrics, DataValidator.new,
    ValidationConfig.default, h1, h2, h3, h4, h5, if_true]
  norm_num [calculate_quality_score]

/-- C8: the signature is the hex encoding of the SHA-256 digest of the
payload bytes followed by the RFC3339 bytes of the timestamp, and it is a
deterministic function of the pair `(data, timestamp)` alone: two
computations on identical inputs produce identical strings. -/
theorem generate_signature_deterministic (data data' : List Byte)
    (ts ts' : DateTimeUtc) :
    generate_signature data ts = hexEncode (sha256 (data ++ ts.rfc3339Bytes)) ∧
    (data = data' → ts = ts' →
      generate_signature data ts = generate_signature data' ts') := by
  refine ⟨rfl, ?_⟩
  intro h1 h2
  rw [h1, h2]

/-- Witness for C8 at a concrete payload and timestamp. -/
theorem generate_signature_deterministic_witness :
    generate_signature [0] ⟨[49]⟩ = hexEncode (sha256 ([0] ++ [49])) ∧
    generate_signature [0] ⟨[49]⟩ = generate_signature [0] ⟨[49]⟩ :=
  ⟨(generate_signature_deterministic [0] [0] ⟨[49]⟩ ⟨[49]⟩).1,
   (generate_signature_deterministic [0] [0] ⟨[49]⟩ ⟨[49]⟩).2 rfl rfl⟩

/-- Helper: the noise level always lies in `[0,1]`. -/
theorem calculate_noise_level_bounds (data : List Byte) :
    0 ≤ calculate_noise_level data ∧ calculate_noise_level data ≤ 1 := by
  simp only [calculate_noise_level]
  split
  · norm_num
  · constructor
    · refine le_min ?_ (by norm_num)
      apply div_nonneg
      · apply div_nonneg
        · apply List.sum_nonneg
          intro x hx
          obtain ⟨y, hy, rfl⟩ := List.mem_map.mp hx
          positivity
        · positivity
      · positivity
    · calc min ((data.map (fun (x : Byte) => ((x : F) - 127.5) ^ 2)).sum /
            (data.length : F) / (127.5 : F) ^ 2) 1.0 ≤ (1.0 : F) := min_le_right _ _
        _ = 1 := by norm_num

/-- Helper: the completeness score always lies in `[0,1]`. -/
theorem calculate_completeness_bounds (data : List Byte) :
    0 ≤ calculate_completeness data ∧ calculate_completeness data ≤ 1 := by
  simp only [calculate_completeness]
  split
  · norm_num
  · constructor
    · exact le_max_of_le_right (by norm_num)
    · apply max_le
      · have h : (0:F) ≤ ((data.filter (fun x => decide (x = 0))).length : F) /
            (data.length : F) := by
          apply div_nonneg <;> positivity
        linarith
      · norm_num

/-- Helper: the consistency score always lies in `[0,1]`. -/
theorem calculate_consistency_bounds (data : List Byte) :
    0 ≤ calculate_consistency data ∧ calculate_consistency data ≤ 1 := by
  simp only [calculate_consistency]
  split
  · norm_num
  · constructor
    · exact le_max_of_le_right (by norm_num)
    · apply max_le
      · have h : (0:F) ≤ (data.map (fun (x : Byte) =>
            ((x : F) - (data.map (fun (x : Byte) => (x : F))).sum /
              (data.length : F)) ^ 2)).sum / (data.length : F) / (127.5 : F) ^ 2 := by
          apply div_nonneg
          · apply div_nonneg
            · apply List.sum_nonneg
              intro x hx
              obtain ⟨y, hy, rfl⟩ := List.mem_map.mp hx
              positivity
            · positivity
          · positivity
        linarith
      · norm_num

/-- Helper: the accuracy score always lies in `[0,1]`. -/
theorem calculate_accuracy_bounds (data : List Byte) :
    0 ≤ calculate_accuracy data ∧ calculate_accuracy data ≤ 1 := by
  simp only [calculate_accuracy]
  split
  · norm_num
  · constructor
    · apply div_nonneg <;> positivity
    · rename_i hne
      have hlen : (0:F) < (data.length : F) := by
        have h := List.length_pos.mpr hne
        exact_mod_cast h
      rw [div_le_one hlen]
      exact_mod_cast Nat.cast_le.mpr (List.length_filter_le _ _)

/-- Helper: any anomaly score the code produces lies in `[0,1]`. -/
theorem calculate_anomaly_score_bounds (data : List Byte) (a : F)
    (h : calculate_anomaly_score data = Except.ok a) : 0 ≤ a ∧ a ≤ 1 := by
  rw [calculate_anomaly_score] at h
  split at h
  · cases h
    norm_num
  · rename_i hge
    simp only [Except.ok.injEq] at h
    subst h
    constructor
    · apply div_nonneg <;> positivity
    · have hlen : (0:F) < (data.length : F) := by
        have h10 : 10 ≤ data.length := Nat.le_of_not_lt hge
        have hpos : 0 < data.length := by omega
        exact_mod_cast hpos
      rw [div_le_one hlen]
      exact_mod_cast Nat.cast_le.mpr (List.length_filter_le _ _)

/-- Helper: the weighted combination of five scores in `[0,1]` is in `[0,1]`. -/
theorem calculate_quality_score_bounds (m : QualityMetrics)
    (h1 : 0 ≤ m.noise_level ∧ m.noise_level ≤ 1)
    (h2 : 0 ≤ m.completeness ∧ m.completeness ≤ 1)
    (h3 : 0 ≤ m.consistency ∧ m.consistency ≤ 1)
    (h4 : 0 ≤ m.accuracy ∧ m.accuracy ≤ 1)
    (h5 : 0 ≤ m.anomaly_score ∧ m.anomaly_score ≤ 1) :
    0 ≤ calculate_quality_score m ∧ calculate_quality_score m ≤ 1 := by
  rw [calculate_quality_score]
  obtain ⟨a1, b1⟩ := h1
  obtain ⟨a2, b2⟩ := h2
  obtain ⟨a3, b3⟩ := h3
  obtain ⟨a4, b4⟩ := h4
  obtain ⟨a5, b5⟩ := h5
  constructor <;> nlinarith

/-- C4: for every byte payload and every validator configuration, each of the
five computed metrics and the derived quality score lie in `[0,1]`. -/
theorem quality_metrics_in_unit_interval (v : DataValidator) (data : List Byte)
    (md : Metadata) (m : QualityMetrics)
    (h : calculate_quality_metrics v data md = Except.ok m) :
    (0 ≤ m.noise_level ∧ m.noise_level ≤ 1) ∧
    (0 ≤ m.completeness ∧ m.completeness ≤ 1) ∧
    (0 ≤ m.consistency ∧ m.consistency ≤ 1) ∧
    (0 ≤ m.accuracy ∧ m.accuracy ≤ 1) ∧
    (0 ≤ m.anomaly_score ∧ m.anomaly_score ≤ 1) ∧
    (0 ≤ calculate_quality_score m ∧ calculate_quality_score m ≤ 1) := by
  simp only [calculate_quality_metrics] at h
  have hm : ∃ a, (0 ≤ a ∧ a ≤ 1) ∧
      m = { noise_level := calculate_noise_level data
            completeness := calculate_completeness data
            consistency := calculate_consistency data
            accuracy := calculate_accuracy data
            anomaly_score := a } := by
    split at h
    · exact absurd h (by simp)
    · rename_i a heq
      simp only [Except.ok.injEq] at h
      refine ⟨a, ?_, h.symm⟩
      split at heq
      · exact calculate_anomaly_score_bounds data a heq
      · simp only [Except.ok.injEq] at heq
        rw [← heq]
        norm_num
  obtain ⟨a, ha, rfl⟩ := hm
  refine ⟨calculate_noise_level_bounds data, calculate_completeness_bounds data,
    calculate_consistency_bounds data, calculate_accuracy_bounds data, ha, ?_⟩
  exact calculate_quality_score_bounds _ (calculate_noise_level_bounds data)
    (calculate_completeness_bounds data) (calculate_consistency_bounds data)
    (calculate_accuracy_bounds data) ha


/-- Witness for C4 at the default validator and the payload `[0]`. -/
theorem quality_metrics_in_unit_interval_witness :
    (0 ≤ wMetrics.noise_level ∧ wMetrics.noise_level ≤ 1) ∧
    (0 ≤ wMetrics.completeness ∧ wMetrics.completeness ≤ 1) ∧
    (0 ≤ wMetrics.consistency ∧ wMetrics.consistency ≤ 1) ∧
    (0 ≤ wMetrics.accuracy ∧ wMetrics.accuracy ≤ 1) ∧
    (0 ≤ wMetrics.anomaly_score ∧ wMetrics.anomaly_score ≤ 1) ∧
    (0 ≤ calculate_quality_score wMetrics ∧ calculate_quality_score wMetrics ≤ 1) :=
  quality_metrics_in_unit_interval DataValidator.new [0] [] wMetrics (by
    simp only [calculate_quality_metrics, calculate_noise_level,
      calculate_completeness, calculate_consistency, calculate_accuracy,
      calculate_anomaly_score, DataValidator.new, ValidationConfig.default,
      wMetrics]
    norm_num)

/-- C5: the result of `validate` satisfies `is_valid = true` exactly when the
quality score reaches the validator's configured threshold; the result of
`validate_with_config` satisfies it exactly for the threshold of the
configuration passed as argument. -/
theorem is_valid_iff_quality_threshold (v : DataValidator) (data : List Byte)
    (metadata : Metadata) (cfg : ValidationConfig) (now : DateTimeUtc)
    (r r' : ValidationResult) :
    (validate v data metadata now = Except.ok r →
      (r.is_valid = true ↔ v.config.min_quality_score ≤ r.quality_score)) ∧
    (validate_with_config v data cfg now = Except.ok r' →
      (r'.is_valid = true ↔ cfg.min_quality_score ≤ r'.quality_score)) := by
  constructor
  · intro h
    obtain ⟨m, hm⟩ := calculate_quality_metrics_ok v data metadata
    unfold validate at h
    rw [hm] at h
    simp only [Except.ok.injEq] at h
    subst h
    simp [decide_eq_true_eq]
  · intro h
    obtain ⟨m, hm⟩ := calculate_quality_metrics_ok v data []
    unfold validate_with_config at h
    rw [hm] at h
    simp only [Except.ok.injEq] at h
    subst h
    simp [decide_eq_true_eq]


/-- Witness for C5 at the default validator, empty payload, default config. -/
theorem is_valid_iff_quality_threshold_witness :
    (wRes.is_valid = true ↔
      DataValidator.new.config.min_quality_score ≤ wRes.quality_score) ∧
    (wRes.is_valid = true ↔
      ValidationConfig.default.min_quality_score ≤ wRes.quality_score) :=
  ⟨(is_valid_iff_quality_threshold DataValidator.new [] [] ValidationConfig.default
      ⟨[]⟩ wRes wRes).1 (by
        simp only [validate, calculate_quality_metrics, calculate_noise_level,
          calculate_completeness, calculate_consistency, calculate_accuracy,
          calculate_anomaly_score, calculate_quality_score, DataValidator.new,
          ValidationConfig.default, wRes, wMetrics]
        norm_num),
   (is_valid_iff_quality_threshold DataValidator.new [] [] ValidationConfig.default
      ⟨[]⟩ wRes wRes).2 (by
        simp only [validate_with_config, calculate_quality_metrics,
          calculate_noise_level, calculate_completeness, calculate_consistency,
          calculate_accuracy, calculate_anomaly_score, calculate_quality_score,
          DataValidator.new, ValidationConfig.default, wRes, wMetrics]
        norm_num)⟩

/-- C9: `validate_with_config` reads only `min_quality_score` from its config
argument: any other config with the same threshold (in particular one with
`enable_anomaly_detection` flipped) yields the identical result, and the
metrics are the ones computed from the validator's constructor-time config
with an empty metadata map. -/
theorem validate_with_config_reads_only_threshold (v : DataValidator)
    (data : List Byte) (cfg cfg' : ValidationConfig) (now : DateTimeUtc)
    (r : ValidationResult)
    (hmin : cfg.min_quality_score = cfg'.min_quality_score)
    (h : validate_with_config v data cfg now = Except.ok r) :
    validate_with_config v data cfg' now = Except.ok r ∧
    calculate_quality_metrics v data [] = Except.ok r.metrics := by
  obtain ⟨m, hm⟩ := calculate_quality_metrics_ok v data []
  unfold validate_with_config at h ⊢
  rw [hm] at h ⊢
  simp only [Except.ok.injEq] at h
  subst h
  rw [← hmin]
  exact ⟨rfl, rfl⟩



/-- Witness for C9: flipping `enable_anomaly_detection` in the passed config
leaves the result unchanged. -/
theorem validate_with_config_reads_only_threshold_witness :
    validate_with_config DataValidator.new [0] wCfgNoAnomaly ⟨[]⟩ =
      Except.ok wRes0 ∧
    calculate_quality_metrics DataValidator.new [0] [] = Except.ok wRes0.metrics :=
  validate_with_config_reads_only_threshold DataValidator.new [0]
    ValidationConfig.default wCfgNoAnomaly ⟨[]⟩ wRes0 rfl (by
      simp only [validate_with_config, calculate_quality_metrics,
        calculate_noise_level, calculate_completeness, calculate_consistency,
        calculate_accuracy, calculate_anomaly_score, calculate_quality_score,
        DataValidator.new, ValidationConfig.default, wRes0, wMetrics]
      norm_num)

/-- Helper: the contacted-client names always form a prefix of the iteration
sequence's names (clients are probed one at a time, in iteration order). -/
theorem store_contacts_in_order (iter : List (String × BlockchainClient))
    (data : List Byte) : store_contacts iter data <+: iter.map Prod.fst := by
  induction iter with
  | nil => simp [store_contacts]
  | cons p rest ih =>
    obtain ⟨n, c⟩ := p
    simp only [store_contacts, List.map_cons]
    by_cases hav : c.is_available
    · simp only [hav, if_true]
      cases hst : c.store_data data with
      | ok h => simp
      | error e => exact (List.cons_prefix_cons).mpr ⟨rfl, ih⟩
    · simp only [hav, Bool.false_eq_true, if_false]
      exact (List.cons_prefix_cons).mpr ⟨rfl, ih⟩

/-- Helper: when an available client whose store succeeds sits at some
position of the iteration sequence, no client after that position is ever
contacted. -/
theorem store_contacts_stops_after_success
    (iter1 iter2 : List (String × BlockchainClient)) (n : String)
    (c : BlockchainClient) (data : List Byte)
    (hav : c.is_available = true) (hok : (c.store_data data).isOk = true) :
    store_contacts (iter1 ++ (n, c) :: iter2) data <+: iter1.map Prod.fst ++ [n] := by
  induction iter1 with
  | nil =>
    simp only [List.nil_append, store_contacts, hav, if_true, List.map_nil]
    cases hst : c.store_data data with
    | ok h => simp
    | error e => rw [hst] at hok; simp [Except.isOk, Except.toBool] at hok
  | cons p rest ih =>
    obtain ⟨k, d⟩ := p
    simp only [List.cons_append, store_contacts, List.map_cons]
    by_cases hdav : d.is_available
    · simp only [hdav, if_true]
      cases hst : d.store_data data with
      | ok h => simp
      | error e => exact (List.cons_prefix_cons).mpr ⟨rfl, ih⟩
    · simp only [hdav, Bool.false_eq_true, if_false]
      exact (List.cons_prefix_cons).mpr ⟨rfl, ih⟩

/-- C1 counterexample: the manager's registry is a `HashMap`, whose iteration
order is unspecified; registering `"a"` then `"b"` (registration-order names
`["a", "b"]`) admits the iteration sequence `[("b", _), ("a", _)]`, under
which `store_data` contacts backend `"b"` first — and backend `"a"`, whose
store would succeed, not at all — so the contact sequence `["b"]` is not even
a prefix of the registration order. -/
theorem store_data_not_registration_order :
    cexMgr.clients.map Prod.fst = ["a", "b"] ∧
    IsIterationOrder cexMgr cexIter ∧
    store_contacts cexIter [1] = ["b"] ∧
    ¬ store_contacts cexIter [1] <+: ["a", "b"] := by
  refine ⟨rfl, ?_, rfl, ?_⟩
  · show cexIter.Perm cexMgr.clients
    have h : cexMgr.clients = [("a", cexA), ("b", cexB)] := rfl
    rw [h]
    exact List.Perm.swap ("a", cexA) ("b", cexB) []
  · have h : store_contacts cexIter [1] = ["b"] := rfl
    rw [h]
    decide

/-- C1 (amended): within one `store_data` invocation the backends are
contacted one at a time, sequentially, in the `HashMap` iteration order — an
unspecified permutation of the registered entries, not necessarily
registration order — and once some backend's store succeeds the call returns
immediately: no backend later in that iteration order is contacted. -/
theorem store_data_sequential_in_iteration_order (m : BlockchainManager)
    (iter iter1 iter2 : List (String × BlockchainClient))
    (n : String) (c : BlockchainClient) (data : List Byte)
    (hiter : IsIterationOrder m iter)
    (hsplit : iter = iter1 ++ (n, c) :: iter2)
    (hav : c.is_available = true)
    (hok : (c.store_data data).isOk = true) :
    store_contacts iter data <+: iter.map Prod.fst ∧
    store_contacts iter data <+: iter1.map Prod.fst ++ [n] := by
  subst hsplit
  exact ⟨store_contacts_in_order _ data,
    store_contacts_stops_after_success iter1 iter2 n c data hav hok⟩

/-- Witness for C1 (amended): failing, succeeding and spy clients in
iteration order; only the first two are contacted. -/
theorem store_data_sequential_in_iteration_order_witness :
    store_contacts [("f", wFail), ("o", wOk), ("s", wSpy)] [3] <+: ["f", "o"] :=
  (store_data_sequential_in_iteration_order
    ⟨[("f", wFail), ("o", wOk), ("s", wSpy)]⟩
    [("f", wFail), ("o", wOk), ("s", wSpy)] [("f", wFail)] [("s", wSpy)]
    "o" wOk [3] (List.Perm.refl _) rfl rfl rfl).2

/-- Helper: `store_data` yields the aggregate error exactly when every client
is unavailable or fails its store call. -/
theorem store_data_error_iff (iter : List (String × BlockchainClient))
    (data : List Byte) :
    (BlockchainManager.store_data iter data =
        Except.error (Error.blockchain "No available blockchain clients")) ↔
    (∀ p ∈ iter, p.2.is_available = false ∨
      ∃ e, p.2.store_data data = Except.error e) := by
  induction iter with
  | nil => simp [BlockchainManager.store_data]
  | cons p rest ih =>
    obtain ⟨n, c⟩ := p
    simp only [BlockchainManager.store_data, List.forall_mem_cons]
    by_cases hav : c.is_available
    · simp only [hav, if_true]
      cases hst : c.store_data data with
      | ok h => simp [hst, hav]
      | error e => simp [hst, hav, ih]
    · simp [hav, ih]

/-- Helper: any error `store_data` returns is the aggregate error. -/
theorem store_data_error_unique (iter : List (String × BlockchainClient))
    (data : List Byte) (e : Error)
    (h : BlockchainManager.store_data iter data = Except.error e) :
    e = Error.blockchain "No available blockchain clients" := by
  induction iter with
  | nil =>
    simp only [BlockchainManager.store_data, Except.error.injEq] at h
    exact h.symm
  | cons p rest ih =>
    obtain ⟨n, c⟩ := p
    simp only [BlockchainManager.store_data] at h
    by_cases hav : c.is_available
    · simp only [hav, if_true] at h
      cases hst : c.store_data data with
      | ok hsh => rw [hst] at h; cases h
      | error e2 => rw [hst] at h; exact ih h
    · simp only [hav, Bool.false_eq_true, if_false] at h
      exact ih h

/-- Helper: `retrieve_data` yields the aggregate error exactly when every
client is unavailable or fails its retrieve call. -/
theorem retrieve_data_error_iff (iter : List (String × BlockchainClient))
    (hash : String) :
    (BlockchainManager.retrieve_data iter hash =
        Except.error (Error.blockchain "No available blockchain clients")) ↔
    (∀ p ∈ iter, p.2.is_available = false ∨
      ∃ e, p.2.retrieve_data hash = Except.error e) := by
  induction iter with
  | nil => simp [BlockchainManager.retrieve_data]
  | cons p rest ih =>
    obtain ⟨n, c⟩ := p
    simp only [BlockchainManager.retrieve_data, List.forall_mem_cons]
    by_cases hav : c.is_available
    · simp only [hav, if_true]
      cases hst : c.retrieve_data hash with
      | ok h => simp [hst, hav]
      | error e => simp [hst, hav, ih]
    · simp [hav, ih]

/-- Helper: any error `retrieve_data` returns is the aggregate error. -/
theorem retrieve_data_error_unique (iter : List (String × BlockchainClient))
    (hash : String) (e : Error)
    (h : BlockchainManager.retrieve_data iter hash = Except.error e) :
    e = Error.blockchain "No available blockchain clients" := by
  induction iter with
  | nil =>
    simp only [BlockchainManager.retrieve_data, Except.error.injEq] at h
    exact h.symm
  | cons p rest ih =>
    obtain ⟨n, c⟩ := p
    simp only [BlockchainManager.retrieve_data] at h
    by_cases hav : c.is_available
    · simp only [hav, if_true] at h
      cases hst : c.retrieve_data hash with
      | ok hsh => rw [hst] at h; cases h
      | error e2 => rw [hst] at h; exact ih h
    · simp only [hav, Bool.false_eq_true, if_false] at h
      exact ih h

/-- C6: `store_data` (resp. `retrieve_data`) returns the single aggregate
"no available blockchain clients" error exactly when every client in the
iteration sequence is unavailable at its probe or fails its store (resp.
retrieve) call, and every error either call surfaces is that aggregate
error — individual backend errors are only logged, never returned. -/
theorem store_retrieve_exhaustion_aggregate
    (iter : List (String × BlockchainClient)) (data : List Byte)
    (hash : String) :
    ((BlockchainManager.store_data iter data =
        Except.error (Error.blockchain "No available blockchain clients")) ↔
      ∀ p ∈ iter, p.2.is_available = false ∨
        ∃ e, p.2.store_data data = Except.error e) ∧
    (∀ e, BlockchainManager.store_data iter data = Except.error e →
      e = Error.blockchain "No available blockchain clients") ∧
    ((BlockchainManager.retrieve_data iter hash =
        Except.error (Error.blockchain "No available blockchain clients")) ↔
      ∀ p ∈ iter, p.2.is_available = false ∨
        ∃ e, p.2.retrieve_data hash = Except.error e) ∧
    (∀ e, BlockchainManager.retrieve_data iter hash = Except.error e →
      e = Error.blockchain "No available blockchain clients") :=
  ⟨store_data_error_iff iter data,
   fun e h => store_data_error_unique iter data e h,
   retrieve_data_error_iff iter hash,
   fun e h => retrieve_data_error_unique iter hash e h⟩

/-- Witness for C6: an unavailable client followed by a failing one exhausts
the registry, and the aggregate error implies the per-client failure facts. -/
theorem store_retrieve_exhaustion_aggregate_witness :
    ∀ p ∈ [("u", wUnavail), ("f", wFail)], p.2.is_available = false ∨
      ∃ e, p.2.store_data [2] = Except.error e :=
  (store_retrieve_exhaustion_aggregate [("u", wUnavail), ("f", wFail)]
    [2] "x").1.mp rfl

/-- Helper: looking a name up after an insert sees the new value exactly for
the inserted name. -/
theorem insertClient_lookup (cs : List (String × BlockchainClient)) (n : String)
    (c : BlockchainClient) (name : String) :
    lookupClient (insertClient cs n c) name =
      if n = name then some c else lookupClient cs name := by
  induction cs with
  | nil => simp [insertClient, lookupClient]
  | cons p rest ih =>
    obtain ⟨k, v⟩ := p
    simp only [insertClient]
    by_cases hk : k = n
    · rw [if_pos hk]
      subst hk
      simp only [lookupClient]
      by_cases hn : k = name <;> simp [hn]
    · rw [if_neg hk]
      simp only [lookupClient, ih]
      by_cases hn : k = name
      · have hnn : ¬ n = name := fun h => hk (hn.trans h.symm)
        simp [hn, hnn]
      · simp [hn]

/-- Helper: an insert adds no key beyond the existing keys and the inserted
one. -/
theorem insertClient_keys_mem (cs : List (String × BlockchainClient))
    (n : String) (c : BlockchainClient) (x : String)
    (h : x ∈ (insertClient cs n c).map Prod.fst) :
    x ∈ cs.map Prod.fst ∨ x = n := by
  induction cs with
  | nil => simpa [insertClient] using h
  | cons p rest ih =>
    obtain ⟨k, v⟩ := p
    simp only [insertClient] at h
    by_cases hk : k = n
    · rw [if_pos hk] at h
      simp only [List.map_cons, List.mem_cons] at h ⊢
      rcases h with h | h
      · exact Or.inr (h.trans hk)
      · exact Or.inl (Or.inr h)
    · rw [if_neg hk] at h
      simp only [List.map_cons, List.mem_cons] at h ⊢
      rcases h with h | h
      · exact Or.inl (Or.inl h)
      · rcases ih h with h2 | h2
        · exact Or.inl (Or.inr h2)
        · exact Or.inr h2

/-- Helper: inserting preserves key distinctness. -/
theorem insertClient_nodup (cs : List (String × BlockchainClient)) (n : String)
    (c : BlockchainClient) (h : (cs.map Prod.fst).Nodup) :
    ((insertClient cs n c).map Prod.fst).Nodup := by
  induction cs with
  | nil => simp [insertClient]
  | cons p rest ih =>
    obtain ⟨k, v⟩ := p
    simp only [List.map_cons, List.nodup_cons] at h
    simp only [insertClient]
    by_cases hk : k = n
    · rw [if_pos hk]
      simp only [List.map_cons, List.nodup_cons]
      exact h
    · rw [if_neg hk]
      simp only [List.map_cons, List.nodup_cons]
      refine ⟨?_, ih h.2⟩
      intro hmem
      rcases insertClient_keys_mem rest n c k hmem with h2 | h2
      · exact h.1 h2
      · exact hk h2

/-- Helper: folding `add_client` over a manager folds `insertClient` over its
entry list. -/
theorem foldl_add_client_clients (adds : List (String × BlockchainClient))
    (m : BlockchainManager) :
    (adds.foldl (fun m p => m.add_client p.1 p.2) m).clients =
      adds.foldl (fun cs p => insertClient cs p.1 p.2) m.clients := by
  induction adds generalizing m with
  | nil => rfl
  | cons p rest ih =>
    simp only [List.foldl_cons]
    rw [ih]
    rfl

/-- Helper: a fold of inserts preserves key distinctness. -/
theorem foldl_insert_nodup (adds : List (String × BlockchainClient))
    (cs : List (String × BlockchainClient)) (h : (cs.map Prod.fst).Nodup) :
    ((adds.foldl (fun cs p => insertClient cs p.1 p.2) cs).map Prod.fst).Nodup := by
  induction adds generalizing cs with
  | nil => exact h
  | cons p rest ih =>
    simp only [List.foldl_cons]
    exact ih _ (insertClient_nodup cs p.1 p.2 h)

/-- Helper: after a fold of inserts, a lookup sees the most recently inserted
value for the name, else whatever the starting list held. -/
theorem foldl_insert_lookup (adds : List (String × BlockchainClient))
    (cs : List (String × BlockchainClient)) (name : String) :
    lookupClient (adds.foldl (fun cs p => insertClient cs p.1 p.2) cs) name =
      (mostRecent adds name).elim (lookupClient cs name) some := by
  induction adds generalizing cs with
  | nil => simp [mostRecent]
  | cons p rest ih =>
    obtain ⟨k, v⟩ := p
    simp only [List.foldl_cons]
    rw [ih]
    cases hm : mostRecent rest name with
    | some c2 => simp [mostRecent, hm]
    | none =>
      simp only [mostRecent, hm, Option.elim]
      rw [insertClient_lookup]
      by_cases hk : k = name <;> simp [hk]

/-- C10: after any sequence of `add_client` calls the registry holds at most
one client per name (`HashMap::insert` silently replaces), and a lookup for a
name resolves to the most recently added client under that name. -/
theorem add_client_registry_replaces (adds : List (String × BlockchainClient))
    (name : String) :
    ((mkManager adds).clients.map Prod.fst).Nodup ∧
    lookupClient (mkManager adds).clients name = mostRecent adds name := by
  constructor
  · rw [mkManager, foldl_add_client_clients]
    exact foldl_insert_nodup adds [] (by simp)
  · rw [mkManager, foldl_add_client_clients, foldl_insert_lookup]
    cases mostRecent adds name <;> simp [lookupClient]

end Kova
